import Mathlib

/-!
Verification of the Thai travel dashboard (`src/dashboard.py`).

Modelling conventions:
* Python strings are `List Char`; Python's machine floats are `PyFloat`
  (exact rationals extended with the IEEE specials `inf`, `-inf`, `nan`).
  Every numeric value occurring in the claims is exactly representable,
  so rounding plays no role; overflow of huge decimal literals to
  infinity is not modelled, the literal specials (`"inf"`, `"nan"`, ...)
  are.
* Fallible Python operations (`float(...)`, sequence indexing) return
  `Except PyErr _`; the bare `try`/`except` blocks of the source are
  explicit `match`es on those results, so "never raises" is a theorem,
  not a definitional accident.
* `float()` on a string is modelled by `parseFloat`: optional surrounding
  whitespace, an optional sign, then a decimal literal (integer part,
  optional fraction, optional exponent) or one of the case-insensitive
  specials `inf`/`infinity`/`nan`.  Python's digit-group underscores and
  non-ASCII digits are not modelled; no claim depends on them.
-/

/-! ### Character and list-of-char utilities (Python string operations) -/

/-- Whitespace characters stripped by Python `str.strip()` (ASCII part). -/
def isWsC (c : Char) : Bool :=
  c == ' ' || c == '\t' || c == '\n' || c == '\r' || c.toNat == 11 || c.toNat == 12

/-- Python `str.strip()`: drop leading and trailing whitespace. -/
def stripWs (l : List Char) : List Char :=
  ((l.dropWhile isWsC).reverse.dropWhile isWsC).reverse

/-- Python `str.replace(c, '')` for a single character `c`. -/
def removeChar (c : Char) (l : List Char) : List Char :=
  l.filter (fun x => x != c)

/-- ASCII lowercasing of one character (Python `str.lower()` restricted to
ASCII; the strings compared against are ASCII). -/
def lowerC (c : Char) : Char :=
  if 'A' ≤ c ∧ c ≤ 'Z' then Char.ofNat (c.toNat + 32) else c

/-- Python `str.lower()` (ASCII part). -/
def toLowerA (l : List Char) : List Char := l.map lowerC

/-- Does `l` begin with `n`? -/
def beginsWith : List Char → List Char → Bool
  | [], _ => true
  | _ :: _, [] => false
  | a :: as, b :: bs => a == b && beginsWith as bs

/-- Python `n in l` substring test. -/
def hasSub (n : List Char) : List Char → Bool
  | [] => n.isEmpty
  | c :: rest => beginsWith n (c :: rest) || hasSub n rest

/-- Python `str.split(sep)` for a one-character predicate separator. -/
def splitOnP (p : Char → Bool) : List Char → List (List Char)
  | [] => [[]]
  | c :: rest =>
    if p c then [] :: splitOnP p rest
    else
      match splitOnP p rest with
      | [] => [[c]]
      | h :: t => (c :: h) :: t

/-- Split `l` at the first occurrence of the substring `sep`:
returns the part before and the part after (Python `str.partition` core). -/
def breakAt (sep : List Char) : List Char → Option (List Char × List Char)
  | [] => none
  | c :: rest =>
    if beginsWith sep (c :: rest) then some ([], (c :: rest).drop sep.length)
    else
      match breakAt sep rest with
      | none => none
      | some (a, b) => some (c :: a, b)

/-- Fuelled worker for `splitOnL`. -/
def splitOnLAux : ℕ → List Char → List Char → List (List Char)
  | 0, _, l => [l]
  | fuel + 1, sep, l =>
    match breakAt sep l with
    | none => [l]
    | some (a, b) => a :: splitOnLAux fuel sep b

/-- Python `str.split(sep)` for a multi-character separator: split at every
non-overlapping occurrence, left to right.  The fuel `l.length + 1` always
suffices because each found occurrence consumes at least one character. -/
def splitOnL (sep l : List Char) : List (List Char) :=
  splitOnLAux (l.length + 1) sep l

/-- Fuelled worker for `removeSubAll`. -/
def removeSubAllAux : ℕ → List Char → List Char → List Char
  | 0, _, l => l
  | fuel + 1, sep, l =>
    match breakAt sep l with
    | none => l
    | some (a, b) => a ++ removeSubAllAux fuel sep b

/-- Python `str.replace(sep, '')`: delete every non-overlapping occurrence
of `sep`, left to right. -/
def removeSubAll (sep l : List Char) : List Char :=
  removeSubAllAux (l.length + 1) sep l

/-! ### Python floats -/

/-- A Python machine float, modelled as an exact rational together with the
IEEE special values. -/
inductive PyFloat where
  | finite (q : ℚ)
  | inf
  | neginf
  | nan
  deriving DecidableEq

/-- Is the float a finite value (neither infinite nor NaN)? -/
def PyFloat.isFin : PyFloat → Bool
  | .finite _ => true
  | _ => false

/-- IEEE negation. -/
def pfNeg : PyFloat → PyFloat
  | .finite q => .finite (-q)
  | .inf => .neginf
  | .neginf => .inf
  | .nan => .nan

/-- IEEE addition (exact on finite values). -/
def pfAdd : PyFloat → PyFloat → PyFloat
  | .nan, _ => .nan
  | .finite _, .nan => .nan
  | .inf, .nan => .nan
  | .neginf, .nan => .nan
  | .finite a, .finite b => .finite (a + b)
  | .finite _, .inf => .inf
  | .finite _, .neginf => .neginf
  | .inf, .finite _ => .inf
  | .neginf, .finite _ => .neginf
  | .inf, .inf => .inf
  | .neginf, .neginf => .neginf
  | .inf, .neginf => .nan
  | .neginf, .inf => .nan

/-- IEEE subtraction. -/
def pfSub (a b : PyFloat) : PyFloat := pfAdd a (pfNeg b)

/-- Division by the literal `2` (the only division in the cleaner). -/
def pfDiv2 : PyFloat → PyFloat
  | .finite q => .finite (q / 2)
  | x => x

/-- Multiplication by the literal `60` (the only multiplication in the
cleaner); `60 > 0`, so infinities keep their sign. -/
def pfMul60 : PyFloat → PyFloat
  | .finite q => .finite (q * 60)
  | x => x

/-! ### `float()` on strings -/

/-- ASCII decimal digit test. -/
def isDigitC (c : Char) : Bool := '0' ≤ c && c ≤ '9'

/-- Numeric value of a digit string (digits assumed). -/
def natValD (s : List Char) : ℕ :=
  s.foldl (fun acc c => 10 * acc + (c.toNat - 48)) 0

/-- Parse a non-empty all-digit string. -/
def digitsVal (s : List Char) : Option ℕ :=
  if !s.isEmpty && s.all isDigitC then some (natValD s) else none

/-- Parse an unsigned mantissa: digits with at most one decimal point and at
least one digit overall (`"1."`, `".5"`, `"10"` succeed; `"."`, `""` fail). -/
def parseMant (s : List Char) : Option ℚ :=
  match splitOnP (fun c => c == '.') s with
  | [a] => (digitsVal a).map (fun n => (n : ℚ))
  | [a, b] =>
    if (!a.isEmpty || !b.isEmpty) && a.all isDigitC && b.all isDigitC then
      some ((natValD a : ℚ) + (natValD b : ℚ) / (10 : ℚ) ^ b.length)
    else none
  | _ => none

/-- Parse the exponent of a decimal literal: optional sign, then digits. -/
def parseExpPart (s : List Char) : Option ℤ :=
  match s with
  | '+' :: r => (digitsVal r).map (fun n => (n : ℤ))
  | '-' :: r => (digitsVal r).map (fun n => -(n : ℤ))
  | _ => (digitsVal s).map (fun n => (n : ℤ))

/-- Parse an unsigned float body: a case-insensitive special, or a decimal
literal with an optional `e`/`E` exponent. -/
def parseUnsigned (s : List Char) : Option PyFloat :=
  if toLowerA s = ("inf".toList) ∨ toLowerA s = ("infinity".toList) then some .inf
  else if toLowerA s = ("nan".toList) then some .nan
  else
    match splitOnP (fun c => c == 'e' || c == 'E') s with
    | [m] => (parseMant m).map .finite
    | [m, ex] =>
      match parseMant m, parseExpPart ex with
      | some q, some e => some (.finite (q * (10 : ℚ) ^ e))
      | _, _ => none
    | _ => none

/-- Python `float(s)` on a string: strip surrounding whitespace, optional
sign, then an unsigned float body.  `none` models `ValueError`. -/
def parseFloat (s : List Char) : Option PyFloat :=
  match stripWs s with
  | '+' :: r => parseUnsigned r
  | '-' :: r => (parseUnsigned r).map pfNeg
  | t => parseUnsigned t

/-! ### The numeric-string cleaner `clean_complex_string` -/

/-- A raw spreadsheet cell: missing (`pd.isna`) or a string.  A numeric cell
enters the cleaner through `str(val)` and is therefore covered by the
string case. -/
inductive Cell where
  | na
  | str (s : List Char)
  deriving DecidableEq

/-- Python exceptions relevant to the cleaner. -/
inductive PyErr where
  | valueError
  | indexError
  deriving DecidableEq

instance {ε α : Type} [DecidableEq ε] [DecidableEq α] : DecidableEq (Except ε α) := fun x y =>
  match x, y with
  | .ok a, .ok b => if h : a = b then .isTrue (by rw [h]) else .isFalse (by simp [h])
  | .error a, .error b => if h : a = b then .isTrue (by rw [h]) else .isFalse (by simp [h])
  | .ok _, .error _ => .isFalse (by simp)
  | .error _, .ok _ => .isFalse (by simp)

/-- `float(s)` as a fallible operation. -/
def pyFloatE (s : List Char) : Except PyErr PyFloat :=
  match parseFloat s with
  | some f => .ok f
  | none => .error .valueError

/-- Python list indexing `l[i]` as a fallible operation. -/
def getItemE (l : List (List Char)) (i : ℕ) : Except PyErr (List Char) :=
  match l.get? i with
  | some x => .ok x
  | none => .error .indexError

/-- The separator `'ชม.'` (hours). -/
def chamS : List Char := "ชม.".toList

/-- The separator `'นาที'` (minutes). -/
def natiS : List Char := "นาที".toList

/-- `(float(parts[0]) + float(parts[1])) / 2` with Python's evaluation
order: `parts[0]`, `float(parts[0])`, `parts[1]`, `float(parts[1])`; a
failure at any step is the raised exception. -/
def avg_first_two : List (List Char) → Except PyErr PyFloat
  | [] => .error .indexError
  | [p0] =>
    match parseFloat p0 with
    | none => .error .valueError
    | some _ => .error .indexError
  | p0 :: p1 :: _ =>
    match parseFloat p0 with
    | none => .error .valueError
    | some a =>
      match parseFloat p1 with
      | none => .error .valueError
      | some b => .ok (pfDiv2 (pfAdd a b))

/-- Body of the first `try` block of `clean_complex_string` (dashboard.py
lines 35-38): split on `'-'` and average the first two parts. -/
def block_range (v : List Char) : Except PyErr PyFloat :=
  avg_first_two (splitOnP (fun c => c == '-') v)

/-- Tail of the duration block (lines 48-50): with hours `h` already parsed
and `val` rebound to `v`, read the minutes if `'นาที'` occurs and return
`h * 60 + m`. -/
def finishDuration (h : PyFloat) (v : List Char) : Except PyErr PyFloat :=
  if hasSub natiS v then
    match pyFloatE (removeSubAll natiS v) with
    | .error e => .error e
    | .ok m => .ok (pfAdd (pfMul60 h) m)
  else .ok (pfAdd (pfMul60 h) (.finite 0))

/-- Body of the second `try` block (lines 42-50).  Returns the block's
result (or the uncaught exception) together with the final value of the
mutable `val`, which the fall-through `float(val)` at line 55 reads. -/
def block_duration (v : List Char) : Except PyErr PyFloat × List Char :=
  if hasSub chamS v then
    match getItemE (splitOnL chamS v) 0 with
    | .error e => (.error e, v)
    | .ok p0 =>
      match pyFloatE p0 with
      | .error e => (.error e, v)
      | .ok h =>
        match getItemE (splitOnL chamS v) 1 with
        | .error e => (.error e, v)
        | .ok v1 => (finishDuration h v1, v1)
  else (finishDuration (.finite 0) v, v)

/-- Final `try: return float(val) except: return 0` (lines 54-57). -/
def finalFallback (v : List Char) : Except PyErr PyFloat :=
  match pyFloatE v with
  | .ok f => .ok f
  | .error _ => .ok (.finite 0)

/-- The normalisation `str(val).replace(',', '').strip()` (line 31). -/
def normCell (s : List Char) : List Char := stripWs (removeChar ',' s)

/-- The cleaner after the range block (lines 41-57): the guarded duration
block (whose caught failure leaves `val` possibly rebound), then the final
`float(val)`-or-`0` fallback. -/
def afterRange (v : List Char) : Except PyErr PyFloat :=
  if hasSub chamS v || hasSub natiS v then
    match block_duration v with
    | (.ok f, _) => .ok f
    | (.error _, v2) => finalFallback v2
  else finalFallback v

/-- The cleaner on the normalised string (lines 32-57): the empty/`'nan'`
early return, then the guarded range block whose caught failure falls
through to `afterRange`. -/
def clean_str (v : List Char) : Except PyErr PyFloat :=
  if v = [] ∨ toLowerA v = ("nan".toList) then .ok (.finite 0)
  else
    match (if v.contains '-' then some (block_range v) else none) with
    | some (.ok f) => .ok f
    | some (.error _) => afterRange v
    | none => afterRange v

/-- `clean_complex_string` (dashboard.py lines 29-57). -/
def clean_complex_string (c : Cell) : Except PyErr PyFloat :=
  match c with
  | .na => .ok (.finite 0)
  | .str s0 => clean_str (normCell s0)

/-- The cleaner as the total function it provably is (the `.error` branch is
dead; see the totality theorem for claim C1). -/
def cleanVal (c : Cell) : PyFloat :=
  match clean_complex_string c with
  | .ok f => f
  | .error _ => .finite 0

/-! ### The tourist time-series table (`load_tourist_data`, lines 59-85) -/

/-- A raw row of the visitor spreadsheet after the per-column numeric
coercion: the `'Unnamed: 0'` label cell (`none` models NaN) and the monthly
values (`none` models a cell `pd.to_numeric(..., errors='coerce')` turned
into NaN).  The numeric payload is an exact rational; the columns are the
post-drop month columns, indexed positionally. -/
structure RawTRow where
  name : Option (List Char)
  vals : List (Option ℚ)
  deriving DecidableEq

/-- The region / national pseudo-rows removed at line 69. -/
def regions_to_remove : List (List Char) :=
  ["ภาคกลางไม่รวมกรุงเทพฯ".toList, "ภาคตะวันออก".toList, "ภาคใต้".toList,
   "ภาคเหนือ".toList, "ภาคตะวันออกเฉียงเหนือ".toList, "ทั่วประเทศไทย".toList]

/-- The national-total pseudo-row label. -/
def nationalLabel : List Char := "ทั่วประเทศไทย".toList

/-- The row filters of `load_tourist_data` (lines 69-75), in source order:
drop the region pseudo-rows, drop NaN provinces, drop provinces whose
string form is `'nan'`, drop provinces containing `'อ้างอิง'`. -/
def load_tourist_data (raw : List RawTRow) : List RawTRow :=
  (((raw.filter (fun r =>
        match r.name with
        | none => true
        | some s => !(regions_to_remove.contains s))).filter
      (fun r => r.name.isSome)).filter
    (fun r =>
      match r.name with
      | none => false
      | some s => toLowerA s != ("nan".toList))).filter
    (fun r =>
      match r.name with
      | none => false
      | some s => !(hasSub ("อ้างอิง".toList) s))

/-- Month value of a row at column `j`, as pandas `sum(skipna=True)` sees
it: a missing cell contributes nothing, i.e. `0`. -/
def monthVal (r : RawTRow) (j : ℕ) : ℚ :=
  (r.vals.getD j none).getD 0

/-- Column `j` sum over the rows, skipping NaN (pandas `DataFrame.sum`). -/
def colSum (rows : List RawTRow) (j : ℕ) : ℚ :=
  rows.foldl (fun acc r => acc + monthVal r j) 0

/-- The synthesised national-total pseudo-row (lines 216-217):
`pd.DataFrame(df.drop(columns=['Province']).sum()).T` with
`Province = 'ทั่วประเทศไทย'`, over `ncols` month columns. -/
def province_data_national (rows : List RawTRow) (ncols : ℕ) : RawTRow :=
  { name := some nationalLabel
    vals := (List.range ncols).map (fun j => some (colSum rows j)) }

/-! ### Generic sorting (pandas `sort_values` / `nlargest` / `groupby`).
A stable insertion sort; the claims proved below are invariant under the
tie-breaking order, so the difference from pandas' default quicksort is
immaterial. -/

/-- Insert `a` into `l` before the first element `b` with `le a b`. -/
def insertBy {α : Type} (le : α → α → Bool) (a : α) : List α → List α
  | [] => [a]
  | b :: rest => if le a b then a :: b :: rest else b :: insertBy le a rest

/-- Stable insertion sort by the boolean comparison `le`. -/
def sortBy {α : Type} (le : α → α → Bool) : List α → List α
  | [] => []
  | a :: rest => insertBy le a (sortBy le rest)

/-- Lexicographic (code-point) order on strings, as Python compares them. -/
def lexLe : List Char → List Char → Bool
  | [], _ => true
  | _ :: _, [] => false
  | a :: as, b :: bs => if a == b then lexLe as bs else decide (a < b)

/-- Keep the first occurrence of each element. -/
def dedupF : List (List Char) → List (List Char)
  | [] => []
  | a :: rest => a :: (dedupF rest).filter (fun b => b != a)

/-! ### The factor table (`load_factor_and_target_data`, lines 87-154) -/

/-- The raw factor CSV: a header row of column names and data rows of cells
aligned with it positionally. -/
structure FactorCSV where
  cols : List (List Char)
  rows : List (List Cell)
  deriving DecidableEq

/-- Rename `'จังหวัด'` to `'Province'` when present (lines 94-95). -/
def renameProv (cols : List (List Char)) : List (List Char) :=
  if cols.contains ("จังหวัด".toList) then
    cols.map (fun c => if c = ("จังหวัด".toList) then "Province".toList else c)
  else cols

/-- `df[c]` for one row: the cell under column name `c` (`.na` when the
column is missing; only used under a presence check, as in the source). -/
def getCellAt (cols : List (List Char)) (row : List Cell) (c : List Char) : Cell :=
  match cols.findIdx? (fun x => x == c) with
  | some i => row.getD i .na
  | none => .na

/-- Python `str(cell)` (`str(nan) = 'nan'`). -/
def strOfCell : Cell → List Char
  | .na => "nan".toList
  | .str s => s

/-- The row filters on the province column (lines 97-99), in source order. -/
def factor_rows (t : FactorCSV) : List (List Cell) :=
  ((t.rows.filter (fun r =>
      getCellAt (renameProv t.cols) r ("Province".toList) != Cell.na)).filter
    (fun r =>
      toLowerA (strOfCell (getCellAt (renameProv t.cols) r ("Province".toList)))
        != ("nan".toList))).filter
    (fun r =>
      !(hasSub ("อ้างอิง".toList)
          (strOfCell (getCellAt (renameProv t.cols) r ("Province".toList)))))

/-- `column_mapping` (lines 101-125): source CSV header ↦ target column. -/
def column_mapping : List (List Char × List Char) :=
  [("สนามบิน\n (มี=1, ไม่มี=0)".toList, "สนามบิน".toList),
   ("รถไฟ\n (มี=1,ไม่มี=0)".toList, "รถไฟ".toList),
   ("ระยะห่างจากกทม.\n(กิโลเมตร) โดยประมาณ".toList, "ระยะห่างจากกรุงเทพ".toList),
   ("ระยะเวลาจากกทม. ไปยังจังหวัดต่างๆ\n (เดินทางโดยรถยนต์)".toList, "เดินทางโดยรถยนต์".toList),
   ("จำนวนการค้นหาบน\nFacebook ".toList, "จำนวนการค้นหาบน Facebook".toList),
   ("จำนวนการค้นหาบน\nTiktok".toList, "จำนวนการค้นหาบน Tiktok".toList),
   ("จำนวนการค้นหาบน\nInstagram ".toList, "จำนวนการค้นหาบน Instagram".toList),
   ("แหล่งท่องเที่ยวเชิงศาสนา".toList, "จำนวนสถานที่ท่องเที่ยว".toList),
   ("แหล่งท่องเที่ยวเชิงประวัติศาสตร์\nและโบราณสถาน".toList, "โบราณสถาน".toList),
   ("พิพิธภัณฑ์และแหล่งเรียนรู้".toList, "พิพิธภัณฑ์".toList),
   ("แหล่งท่องเที่ยวเชิงนันทนาการ\nและสวนสาธารณะ".toList, "สวนสาธารณะ".toList),
   ("แหล่งท่องเที่ยวเชิงพาณิชย์และตลาด".toList, "ตลาด".toList),
   ("แหล่งท่องเที่ยวเชิงวัฒนธรรม\nร่วมสมัยและบันเทิง".toList, "ร่วมสมัยและบันเทิง".toList),
   ("แหล่งท่องเที่ยวเชิงธรรมชาติ\nและสิ่งแวดล้อม".toList, "ธรรมชาติและสิ่งแวดล้อม".toList),
   ("โครงสร้างพื้นฐานและสัญลักษณ์เมือง".toList, "สัญลักษณ์เมือง".toList),
   ("คาเฟ่".toList, "ความหนาแน่นของคาเฟ่".toList),
   ("ปัญหาด้านเศรษฐกิจและรายได้ประชากร".toList, "ปัญหาด้านเศรษฐกิจ".toList),
   ("ปัญหาโครงสร้างพื้นฐานและระบบคมนาคม".toList, "ปัญหาระบบการคมนาคม".toList),
   ("ปัญหาสิ่งแวดล้อมและมลพิษ".toList, "ปัญหามลพิษ".toList),
   ("ปัญหาภัยพิบัติและความเสี่ยงด้านสภาพภูมิอากาศ".toList, "ปัญหาความเสี่ยงด้านภัยพิบัติ".toList),
   ("ปัญหาการขยายตัวของเมืองและคุณภาพชีวิต".toList, "ปัญหาคุณภาพชีวิต".toList),
   ("ปัญหาโครงสร้างประชากรและการย้ายถิ่น".toList, "ปัญหาโครงสร้างประชากร".toList),
   ("จำนวนนักท่องเที่ยว".toList, "Total_Tourists".toList)]

/-- `required_features` (lines 140-148). -/
def required_features : List (List Char) :=
  ["สนามบิน".toList, "รถไฟ".toList, "ระยะห่างจากกรุงเทพ".toList, "เดินทางโดยรถยนต์".toList,
   "จำนวนการค้นหาบน Facebook".toList, "จำนวนการค้นหาบน Tiktok".toList,
   "จำนวนการค้นหาบน Instagram".toList,
   "จำนวนสถานที่ท่องเที่ยว".toList,
   "โบราณสถาน".toList, "พิพิธภัณฑ์".toList, "สวนสาธารณะ".toList, "ตลาด".toList,
   "ร่วมสมัยและบันเทิง".toList, "ธรรมชาติและสิ่งแวดล้อม".toList, "สัญลักษณ์เมือง".toList,
   "ปัญหาด้านเศรษฐกิจ".toList, "ปัญหาระบบการคมนาคม".toList, "ปัญหามลพิษ".toList,
   "ปัญหาความเสี่ยงด้านภัยพิบัติ".toList, "ปัญหาคุณภาพชีวิต".toList,
   "ปัญหาโครงสร้างประชากร".toList,
   "ความหนาแน่นของคาเฟ่".toList,
   "ความสนใจต่อที่เที่ยว".toList]

/-- A row of the built factor table: province plus named numeric columns. -/
structure FRow where
  prov : List Char
  cells : List (List Char × PyFloat)
  deriving DecidableEq

/-- Assoc-list column lookup (`row[c]`). -/
def lookupF (cells : List (List Char × PyFloat)) (c : List Char) : Option PyFloat :=
  (cells.find? (fun p => p.1 == c)).map (fun p => p.2)

/-- Column lookup with a default never reached for the columns the source
reads (they are always present; see the claim C4 theorem). -/
def lookupD (cells : List (List Char × PyFloat)) (c : List Char) : PyFloat :=
  (lookupF cells c).getD (.finite 0)

/-- The derived search-interest column name (line 136). -/
def interestName : List Char := "ความสนใจต่อที่เที่ยว".toList

/-- Build one `new_df` row (lines 127-138): every `column_mapping` target
gets the cleaned source cell, or `0` if the source column is absent; then
the search-interest column is the sum of the three search columns. -/
def make_frow (cols : List (List Char)) (row : List Cell) : FRow :=
  let base : List (List Char × PyFloat) :=
    column_mapping.map (fun p =>
      (p.2, if cols.contains p.1 then cleanVal (getCellAt cols row p.1) else .finite 0))
  let interest :=
    pfAdd (pfAdd (lookupD base ("จำนวนการค้นหาบน Facebook".toList))
        (lookupD base ("จำนวนการค้นหาบน Tiktok".toList)))
      (lookupD base ("จำนวนการค้นหาบน Instagram".toList))
  { prov := strOfCell (getCellAt cols row ("Province".toList))
    cells := base ++ [(interestName, interest)] }

/-- The columns of `new_df`: Province, the mapping targets, the derived
search-interest column. -/
def new_df_columns : List (List Char) :=
  ("Province".toList) :: (column_mapping.map (fun p => p.2) ++ [interestName])

/-- `[c for c in required_features if c in new_df.columns]` (line 150). -/
def final_feature_cols : List (List Char) :=
  required_features.filter (fun c => new_df_columns.contains c)

/-- The columns of the returned factor table (line 150). -/
def df_final_columns : List (List Char) :=
  ("Province".toList) :: ("Total_Tourists".toList) :: final_feature_cols

/-- `new_df[final_cols]` on one row (line 151). -/
def select_cells (r : FRow) : FRow :=
  { prov := r.prov
    cells := (("Total_Tourists".toList) :: final_feature_cols).map
      (fun c => (c, lookupD r.cells c)) }

/-- `groupby('Province').last().reset_index()` (line 152): one row per
distinct province, keys in ascending order, values from the last
occurrence. -/
def group_last (rows : List FRow) : List FRow :=
  (sortBy lexLe (dedupF (rows.map (fun r => r.prov)))).filterMap
    (fun p => rows.reverse.find? (fun r => r.prov == p))

/-- `load_factor_and_target_data` (lines 87-154): filter rows, build the
mapped and derived columns, select the final columns, group by province. -/
def load_factor_and_target_data (t : FactorCSV) : List FRow :=
  group_last (((factor_rows t).map (make_frow (renameProv t.cols))).map select_cells)

/-! ### Tab 2: model data, comparison table, SWOT classification -/

/-- `train_data` (lines 342-343): the factor table without the capital. -/
def train_data (t : FactorCSV) : List FRow :=
  (load_factor_and_target_data t).filter (fun r => r.prov != ("กรุงเทพมหานคร".toList))

/-- `Total_Tourists` of a row. -/
def touristsOf (r : FRow) : PyFloat := lookupD r.cells ("Total_Tourists".toList)

/-- IEEE strict less-than (`nan` incomparable). -/
def pfLtB : PyFloat → PyFloat → Bool
  | .finite a, .finite b => decide (a < b)
  | .finite _, .inf => true
  | .neginf, .finite _ => true
  | .neginf, .inf => true
  | _, _ => false

/-- IEEE strict greater-than. -/
def pfGtB (a b : PyFloat) : Bool := pfLtB b a

/-- Is the float NaN? -/
def pfIsNanB : PyFloat → Bool
  | .nan => true
  | _ => false

/-- Sum of a list of floats. -/
def pfSumL (l : List PyFloat) : PyFloat := l.foldl pfAdd (.finite 0)

/-- Division by a natural count (`n > 0` at every use site). -/
def pfDivNat (x : PyFloat) (n : ℕ) : PyFloat :=
  match x with
  | .finite q => .finite (q / (n : ℚ))
  | other => other

/-- pandas `Series.mean()`: skip NaN, `NaN` on an empty column. -/
def pfMean (l : List PyFloat) : PyFloat :=
  let vs := l.filter (fun x => !(pfIsNanB x))
  if vs.isEmpty then .nan else pfDivNat (pfSumL vs) vs.length

/-- `nlargest(10, 'Total_Tourists')` (line 393): stable descending sort by
visitor count, take ten (`keep='first'` on ties). -/
def nlargest10 (rows : List FRow) : List FRow :=
  (sortBy (fun a b => !(pfLtB (touristsOf a) (touristsOf b))) rows).take 10

/-- One `comparison_data` entry (lines 398-406): current value, top-10
benchmark mean, and the gap `prov_v - bench_v`. -/
def comp_row (prow : FRow) (top10 : List FRow) (f : List Char) :
    PyFloat × PyFloat × PyFloat :=
  (lookupD prow.cells f,
   pfMean (top10.map (fun r => lookupD r.cells f)),
   pfSub (lookupD prow.cells f) (pfMean (top10.map (fun r => lookupD r.cells f))))

/-- `comparison_data` (lines 391-407): first row matching the selected
province (`iloc[0]`; `none` when absent, where the source raises), compared
against the top-10 benchmark for every feature. -/
def comparison_data (rows : List FRow) (sel : List Char) :
    Option (List (List Char × (PyFloat × PyFloat × PyFloat))) :=
  (rows.find? (fun r => r.prov == sel)).map (fun prow =>
    required_features.map (fun f => (f, comp_row prow (nlargest10 rows) f)))

/-- Lookup of one feature's comparison entry (`comp_df.loc[f]`). -/
def compLookup (rows : List FRow) (sel : List Char) (f : List Char) :
    Option (PyFloat × PyFloat × PyFloat) :=
  (comparison_data rows sel).bind (fun l =>
    (l.find? (fun p => p.1 == f)).map (fun p => p.2))

/-- `uncontrollable_vars` (line 368). -/
def uncontrollable_vars : List (List Char) :=
  ["ระยะห่างจากกรุงเทพ".toList, "เดินทางโดยรถยนต์".toList, "รถไฟ".toList, "สนามบิน".toList]

/-- `result_vars` (line 369). -/
def result_vars : List (List Char) :=
  ["จำนวนการค้นหาบน Facebook".toList, "จำนวนการค้นหาบน Tiktok".toList,
   "จำนวนการค้นหาบน Instagram".toList, interestName]

/-- `actionable_vars` (line 370): the features that are neither
distance/transport availability nor search volume/interest. -/
def actionable_vars : List (List Char) :=
  required_features.filter (fun f =>
    !(uncontrollable_vars.contains f) && !(result_vars.contains f))

/-- `negative_keywords` (line 424). -/
def negative_keywords : List (List Char) :=
  ["ปัญหา".toList, "มลพิษ".toList, "ความเสี่ยง".toList]

/-- `is_negative_factor` (line 425): does the feature name contain a
negative keyword? -/
def isNegFactor (f : List Char) : Bool :=
  negative_keywords.any (fun kw => hasSub kw f)

/-- The `item` dict of the classification loop (lines 427-432). -/
structure SWItem where
  feature : List Char
  current : PyFloat
  target : PyFloat
  is_neg : Bool
  deriving DecidableEq

/-- Build the loop's item for feature `f` from the comparison columns. -/
def mkItem (cur tgt : List Char → PyFloat) (f : List Char) : SWItem :=
  { feature := f, current := cur f, target := tgt f, is_neg := isNegFactor f }

/-- The SWOT classification loop (lines 419-443): returns the
(weaknesses, opportunities, strengths) lists in append order. -/
def swot_lists (cur tgt : List Char → PyFloat) :
    List (List Char) → List SWItem × List SWItem × List SWItem
  | [] => ([], [], [])
  | f :: rest =>
    let done := swot_lists cur tgt rest
    let it := mkItem cur tgt f
    if isNegFactor f then
      if pfGtB (cur f) (tgt f) then (it :: done.1, done.2.1, done.2.2)
      else (done.1, done.2.1, it :: done.2.2)
    else
      if pfLtB (cur f) (tgt f) then (done.1, it :: done.2.1, done.2.2)
      else (done.1, done.2.1, it :: done.2.2)

/-- `sorted_actionable_imp` (line 413): the actionable features sorted by
model importance, descending.  (`feature_imp_df` filtered by membership in
`actionable_vars` holds exactly the `actionable_vars` features; the
importance scores come from the fitted ensemble and are a parameter here.) -/
def sorted_actionable_imp (imp : List Char → ℚ) : List (List Char) :=
  sortBy (fun a b => decide (imp b ≤ imp a)) actionable_vars

/-- The `Value` column read by the loop (line 421). -/
def curOf (comp : List (List Char × (PyFloat × PyFloat × PyFloat))) (f : List Char) : PyFloat :=
  ((comp.find? (fun p => p.1 == f)).map (fun p => p.2.1)).getD (.finite 0)

/-- The `Benchmark (Top10)` column read by the loop (line 422). -/
def tgtOf (comp : List (List Char × (PyFloat × PyFloat × PyFloat))) (f : List Char) : PyFloat :=
  ((comp.find? (fun p => p.1 == f)).map (fun p => p.2.2.1)).getD (.finite 0)

/-! ### Tab 1: melt and forecast slicing (lines 221-224, 281-331) -/

/-- `melt` + `dropna` + `sort_values('Date')` for one province row: month
indices paired with the present visitor values, sorted by month. -/
def melted (vals : List (Option ℚ)) : List (ℕ × ℚ) :=
  sortBy (fun a b => decide (a.1 ≤ b.1))
    ((List.range vals.length).filterMap (fun j => (vals.getD j none).map (fun q => (j, q))))

/-- Maximum of a list of month indices. -/
def maxD (l : List ℕ) : ℕ := l.foldl max 0

/-- `Prophet.make_future_dataframe(periods, freq='MS')`, modelled from the
library's documented behaviour on month-start history dates: the history
dates followed by `periods` consecutive months after the last history
date. -/
def make_future_dataframe (histDates : List ℕ) (periods : ℕ) : List ℕ :=
  histDates ++ (List.range periods).map (fun i => maxD histDates + 1 + i)

/-- Lines 281-289 and 326-331: fit on the melted history, predict over the
future frame (`predict` abstracts the fitted model's per-date point
estimate and lower/upper bounds), and keep the rows with `ds > last_date`.
Each retained row carries the date and the triple
`(yhat, yhat_lower, yhat_upper)`. -/
def forecast_pipeline (vals : List (Option ℚ)) (predict : ℕ → ℚ × ℚ × ℚ) :
    List (ℕ × (ℚ × ℚ × ℚ)) :=
  match ((melted vals).map (fun p => p.1)).getLast? with
  | none => []
  | some lastD =>
    ((make_future_dataframe ((melted vals).map (fun p => p.1)) 12).map
        (fun d => (d, predict d))).filter (fun r => decide (lastD < r.1))

/-! ### Auxiliary definitions: claim predicates, claim-modelled notions,
and concrete tables used by the witnesses and counterexamples -/

/-- A character that can occur in no successfully parsed float string:
not whitespace, sign, point, exponent marker, digit, nor a letter of the
case-insensitive specials. -/
def badChar (c : Char) : Bool :=
  !(isWsC c) && c != '+' && c != '-' && c != '.' && c != 'e' && c != 'E' &&
    !(isDigitC c) && !(decide (lowerC c ∈ ("infinity".toList))) &&
    !(decide (lowerC c ∈ ("nan".toList)))

/-- Did the `Except` computation succeed? -/
def isOkE {ε α : Type} : Except ε α → Bool
  | .ok _ => true
  | .error _ => false

/-- The first two components of the full dash split (`parts[i]`). -/
def partD (v : List Char) (i : ℕ) : List Char :=
  (splitOnP (fun c => c == '-') v).getD i []

/-- Did the range block's parse of the normalised string succeed? -/
def rangeOkB (s : List Char) : Bool :=
  (normCell s).contains '-' && isOkE (block_range (normCell s))

/-- Did the duration block's parse of the normalised string succeed? -/
def durationOkB (s : List Char) : Bool :=
  (hasSub chamS (normCell s) || hasSub natiS (normCell s)) &&
    isOkE (block_duration (normCell s)).1

/-- Does the normalised string parse as a plain float? -/
def plainOkB (s : List Char) : Bool := (parseFloat (normCell s)).isSome

/-- Modelled from the claim's wording: the two parts around the *first*
`'-'` of the string (the code instead splits on every `'-'`). -/
def firstDashHalves (v : List Char) : List Char × List Char :=
  match breakAt ['-'] v with
  | none => (v, [])
  | some (a, b) => (a, b)

/-- A concrete two-province table for the C3 witness. -/
def rawW : List RawTRow :=
  [{ name := some ("ก".toList), vals := [some 1] },
   { name := some ("ข".toList), vals := [some 2] }]

/-- A concrete one-row factor CSV (only a province column) for the C4
witness: every source column is absent. -/
def tW : FactorCSV :=
  { cols := ["Province".toList], rows := [[Cell.str ("ก".toList)]] }

/-- The single row of the factor table loaded from `tW`. -/
def r0W : FRow := (load_factor_and_target_data tW).getD 0 { prov := [], cells := [] }

/-- Number of loop items recorded for feature `f`. -/
def countFeat (f : List Char) (l : List SWItem) : ℕ :=
  (l.filter (fun it => it.feature == f)).length

/-- Modelled from the spec: a sign convention that differs between
problem-type and positive features (the problem-type gap flipped to
benchmark - current). -/
def spec_gap (f : List Char) (v b : PyFloat) : PyFloat :=
  if isNegFactor f then pfSub b v else pfSub v b

/-- A two-province factor table where the selected province exceeds the
benchmark by 2 on both a problem-type and a positive feature. -/
def rowA : FRow :=
  { prov := "A".toList
    cells := [("Total_Tourists".toList, .finite 1),
              ("ปัญหามลพิษ".toList, .finite 5), ("ตลาด".toList, .finite 5)] }

def rowB : FRow :=
  { prov := "B".toList
    cells := [("Total_Tourists".toList, .finite 2),
              ("ปัญหามลพิษ".toList, .finite 1), ("ตลาด".toList, .finite 1)] }

def rowsCE : List FRow := [rowA, rowB]

/-- The comparison table built from `rowsCE` for province A. -/
def compW : List (List Char × (PyFloat × PyFloat × PyFloat)) :=
  (comparison_data rowsCE ("A".toList)).getD []

/-- A constant importance score for the C5/C6 witnesses. -/
def impW : List Char → ℚ := fun _ => 0

/-! ### Lemmas: membership in string operations -/

theorem mem_dropWhile_of_mem {p : Char → Bool} {c : Char} {l : List Char}
    (hc : c ∈ l) (hpc : p c = false) : c ∈ l.dropWhile p := by
  induction l with
  | nil => cases hc
  | cons a t ih =>
    by_cases hpa : p a = true
    · rw [List.dropWhile_cons, if_pos hpa]
      rcases List.mem_cons.mp hc with rfl | h
      · rw [hpa] at hpc; cases hpc
      · exact ih h
    · rw [List.dropWhile_cons, if_neg hpa]
      exact hc

theorem mem_stripWs_of {c : Char} {s : List Char}
    (hc : c ∈ s) (hws : isWsC c = false) : c ∈ stripWs s := by
  unfold stripWs
  rw [List.mem_reverse]
  exact mem_dropWhile_of_mem (List.mem_reverse.mpr (mem_dropWhile_of_mem hc hws)) hws

theorem mem_of_beginsWith {n : List Char} {c : Char} (hc : c ∈ n) :
    ∀ {h : List Char}, beginsWith n h = true → c ∈ h := by
  induction n with
  | nil => cases hc
  | cons a as ih =>
    intro h hb
    cases h with
    | nil => simp [beginsWith] at hb
    | cons b bs =>
      rw [beginsWith, Bool.and_eq_true, beq_iff_eq] at hb
      rcases List.mem_cons.mp hc with rfl | hmem
      · exact hb.1 ▸ List.mem_cons.mpr (Or.inl rfl)
      · exact List.mem_cons.mpr (Or.inr (ih hmem hb.2))

theorem mem_of_hasSub {n : List Char} {c : Char} (hc : c ∈ n) :
    ∀ {h : List Char}, hasSub n h = true → c ∈ h := by
  intro h
  induction h with
  | nil =>
    intro hh
    rw [hasSub, List.isEmpty_iff] at hh
    subst hh; cases hc
  | cons b bs ih =>
    intro hh
    rw [hasSub, Bool.or_eq_true] at hh
    rcases hh with hb | hr
    · exact mem_of_beginsWith hc hb
    · exact List.mem_cons.mpr (Or.inr (ih hr))

theorem splitOnP_ne_nil (p : Char → Bool) (l : List Char) : splitOnP p l ≠ [] := by
  induction l with
  | nil => simp [splitOnP]
  | cons a t ih =>
    rw [splitOnP]
    by_cases hpa : p a = true
    · simp [hpa]
    · rw [if_neg hpa]
      rcases h : splitOnP p t with _ | ⟨h1, t2⟩ <;> simp

theorem exists_mem_splitOnP (p : Char → Bool) {c : Char} {l : List Char}
    (hc : c ∈ l) (hpc : p c = false) : ∃ part ∈ splitOnP p l, c ∈ part := by
  induction l with
  | nil => cases hc
  | cons a t ih =>
    by_cases hpa : p a = true
    · rw [splitOnP, if_pos hpa]
      rcases List.mem_cons.mp hc with rfl | hct
      · rw [hpa] at hpc; cases hpc
      · obtain ⟨part, hp1, hp2⟩ := ih hct
        exact ⟨part, List.mem_cons.mpr (Or.inr hp1), hp2⟩
    · rw [splitOnP, if_neg hpa]
      rcases hsp : splitOnP p t with _ | ⟨h1, t2⟩
      · exact absurd hsp (splitOnP_ne_nil p t)
      · rcases List.mem_cons.mp hc with rfl | hct
        · exact ⟨c :: h1, List.mem_cons.mpr (Or.inl rfl), List.mem_cons.mpr (Or.inl rfl)⟩
        · obtain ⟨part, hp1, hp2⟩ := ih hct
          rw [hsp] at hp1
          rcases List.mem_cons.mp hp1 with rfl | hp1t
          · exact ⟨a :: part, List.mem_cons.mpr (Or.inl rfl), List.mem_cons.mpr (Or.inr hp2)⟩
          · exact ⟨part, List.mem_cons.mpr (Or.inr hp1t), hp2⟩

theorem all_eq_false_of_mem {p : Char → Bool} {c : Char} {l : List Char}
    (hc : c ∈ l) (hpc : p c = false) : l.all p = false := by
  cases hall : l.all p
  · rfl
  · rw [List.all_eq_true] at hall
    rw [hall c hc] at hpc
    cases hpc

/-! ### Lemmas: `float()` rejects strings containing foreign characters -/

theorem digitsVal_eq_none {s : List Char} {c : Char}
    (hc : c ∈ s) (hd : isDigitC c = false) : digitsVal s = none := by
  unfold digitsVal
  rw [all_eq_false_of_mem hc hd, Bool.and_false, if_neg]
  simp

theorem parseExpPart_eq_none {s : List Char} {c : Char} (hc : c ∈ s)
    (hplus : c ≠ '+') (hminus : c ≠ '-') (hd : isDigitC c = false) :
    parseExpPart s = none := by
  unfold parseExpPart
  split
  case h_1 r =>
    rcases List.mem_cons.mp hc with rfl | hcr
    · exact absurd rfl hplus
    · rw [digitsVal_eq_none hcr hd]; rfl
  case h_2 r =>
    rcases List.mem_cons.mp hc with rfl | hcr
    · exact absurd rfl hminus
    · rw [digitsVal_eq_none hcr hd]; rfl
  case h_3 =>
    rw [digitsVal_eq_none hc hd]; rfl

theorem parseMant_eq_none {s : List Char} {c : Char} (hc : c ∈ s)
    (hdot : c ≠ '.') (hd : isDigitC c = false) : parseMant s = none := by
  have hpc : (c == '.') = false := by simp [hdot]
  obtain ⟨part, hp1, hp2⟩ := exists_mem_splitOnP (fun x => x == '.') hc hpc
  unfold parseMant
  split
  case h_1 a heq =>
    rw [heq] at hp1
    rcases List.mem_cons.mp hp1 with rfl | h
    · rw [digitsVal_eq_none hp2 hd]; rfl
    · cases h
  case h_2 a b heq =>
    rw [heq] at hp1
    rcases List.mem_cons.mp hp1 with rfl | h
    · rw [if_neg]
      rw [all_eq_false_of_mem hp2 hd]
      simp
    · rcases List.mem_cons.mp h with rfl | h2
      · rw [if_neg]
        rw [all_eq_false_of_mem hp2 hd]
        simp
      · cases h2
  case h_3 => rfl

theorem parseUnsigned_eq_none {s : List Char} {c : Char} (hc : c ∈ s)
    (hb : badChar c = true) : parseUnsigned s = none := by
  simp only [badChar, Bool.and_eq_true, Bool.not_eq_true', bne_iff_ne, ne_eq,
    decide_eq_false_iff_not] at hb
  obtain ⟨⟨⟨⟨⟨⟨⟨⟨_, hplus⟩, hminus⟩, hdot⟩, he⟩, hE⟩, hd⟩, hinfm⟩, hnanm⟩ := hb
  unfold parseUnsigned
  rw [if_neg, if_neg]
  · have hpc : (c == 'e' || c == 'E') = false := by simp [he, hE]
    obtain ⟨part, hp1, hp2⟩ := exists_mem_splitOnP (fun x => x == 'e' || x == 'E') hc hpc
    split
    case h_1 m heq =>
      rw [heq] at hp1
      rcases List.mem_cons.mp hp1 with rfl | h
      · rw [parseMant_eq_none hp2 hdot hd]; rfl
      · cases h
    case h_2 m ex heq =>
      rw [heq] at hp1
      rcases List.mem_cons.mp hp1 with rfl | h
      · rw [parseMant_eq_none hp2 hdot hd]
      · rcases List.mem_cons.mp h with rfl | h2
        · rw [parseExpPart_eq_none hp2 hplus hminus hd]
          cases hm : parseMant m <;> rfl
        · cases h2
    case h_3 => rfl
  · intro h
    exact hnanm (h ▸ List.mem_map_of_mem lowerC hc)
  · rintro (h | h)
    · have hmm : lowerC c ∈ ("inf".toList) := h ▸ List.mem_map_of_mem lowerC hc
      have hsub : ∀ x ∈ ("inf".toList), x ∈ ("infinity".toList) := by decide
      exact hinfm (hsub _ hmm)
    · exact hinfm (h ▸ List.mem_map_of_mem lowerC hc)

theorem parseFloat_eq_none {s : List Char} {c : Char} (hc : c ∈ s)
    (hb : badChar c = true) : parseFloat s = none := by
  have hb2 := hb
  simp only [badChar, Bool.and_eq_true, Bool.not_eq_true', bne_iff_ne, ne_eq,
    decide_eq_false_iff_not] at hb2
  obtain ⟨⟨⟨⟨⟨⟨⟨⟨hws, hplus⟩, hminus⟩, _⟩, _⟩, _⟩, _⟩, _⟩, _⟩ := hb2
  have hms : c ∈ stripWs s := mem_stripWs_of hc hws
  unfold parseFloat
  split
  case h_1 r heq =>
    rw [heq] at hms
    rcases List.mem_cons.mp hms with rfl | hcr
    · exact absurd rfl hplus
    · exact parseUnsigned_eq_none hcr hb
  case h_2 r heq =>
    rw [heq] at hms
    rcases List.mem_cons.mp hms with rfl | hcr
    · exact absurd rfl hminus
    · rw [parseUnsigned_eq_none hcr hb]; rfl
  case h_3 =>
    exact parseUnsigned_eq_none hms hb

/-! ### Lemmas: structure of the cleaner -/

theorem finalFallback_ok (v : List Char) : ∃ f, finalFallback v = .ok f := by
  unfold finalFallback pyFloatE
  cases h : parseFloat v <;> exact ⟨_, rfl⟩

theorem finalFallback_of_none {v : List Char} (h : parseFloat v = none) :
    finalFallback v = .ok (.finite 0) := by
  unfold finalFallback pyFloatE
  rw [h]

theorem finishDuration_err {h0 : PyFloat} {v1 : List Char} {e : PyErr}
    (h : finishDuration h0 v1 = .error e) : hasSub natiS v1 = true := by
  unfold finishDuration at h
  by_cases hn : hasSub natiS v1 = true
  · exact hn
  · rw [if_neg hn] at h
    cases h

theorem block_duration_err_val {v : List Char} {e : PyErr} {v2 : List Char}
    (h : block_duration v = (.error e, v2)) : v2 = v ∨ hasSub natiS v2 = true := by
  unfold block_duration at h
  split at h
  · split at h
    · rw [Prod.mk.injEq] at h
      exact Or.inl h.2.symm
    · split at h
      · rw [Prod.mk.injEq] at h
        exact Or.inl h.2.symm
      · split at h
        · rw [Prod.mk.injEq] at h
          exact Or.inl h.2.symm
        · rw [Prod.mk.injEq] at h
          exact Or.inr (h.2 ▸ finishDuration_err h.1)
  · rw [Prod.mk.injEq] at h
    exact Or.inl h.2.symm

theorem afterRange_ok (v : List Char) : ∃ f, afterRange v = .ok f := by
  unfold afterRange
  split
  · rcases hbd : block_duration v with ⟨r, v2⟩
    rcases r with e | f
    · exact finalFallback_ok v2
    · exact ⟨f, rfl⟩
  · exact finalFallback_ok v

theorem afterRange_unparseable {v : List Char}
    (hd : ((hasSub chamS v || hasSub natiS v) && isOkE (block_duration v).1) = false)
    (hp : parseFloat v = none) : afterRange v = .ok (.finite 0) := by
  unfold afterRange
  by_cases hg : (hasSub chamS v || hasSub natiS v) = true
  · rw [if_pos hg]
    rw [hg, Bool.true_and] at hd
    rcases hbd : block_duration v with ⟨r, v2⟩
    rcases r with e2 | f
    · rcases block_duration_err_val hbd with rfl | hsub
      · exact finalFallback_of_none hp
      · have hn : ('น' : Char) ∈ v2 := mem_of_hasSub (by decide) hsub
        exact finalFallback_of_none (parseFloat_eq_none hn (by decide))
    · rw [hbd] at hd
      cases hd
  · rw [if_neg hg]
    exact finalFallback_of_none hp

theorem clean_str_total (v : List Char) : ∃ f, clean_str v = .ok f := by
  unfold clean_str
  split
  · exact ⟨.finite 0, rfl⟩
  · by_cases hcon : v.contains '-' = true
    · rw [if_pos hcon]
      rcases hbr : block_range v with e | f
      · exact afterRange_ok v
      · exact ⟨f, rfl⟩
    · rw [if_neg hcon]
      exact afterRange_ok v

theorem clean_total (c : Cell) : ∃ f, clean_complex_string c = .ok f := by
  cases c with
  | na => exact ⟨.finite 0, rfl⟩
  | str s0 => exact clean_str_total (normCell s0)

theorem clean_str_unparseable {v : List Char}
    (hr : (v.contains '-' && isOkE (block_range v)) = false)
    (hd : ((hasSub chamS v || hasSub natiS v) && isOkE (block_duration v).1) = false)
    (hp : parseFloat v = none) : clean_str v = .ok (.finite 0) := by
  unfold clean_str
  split
  · rfl
  · by_cases hcon : v.contains '-' = true
    · rw [if_pos hcon]
      rw [hcon, Bool.true_and] at hr
      rcases hbr : block_range v with e | f
      · exact afterRange_unparseable hd hp
      · rw [hbr] at hr
        cases hr
    · rw [if_neg hcon]
      exact afterRange_unparseable hd hp

theorem normCell_ws {s : List Char} (h : s.all isWsC = true) : normCell s = [] := by
  unfold normCell removeChar
  have h1 : s.filter (fun x => x != ',') = s := by
    rw [List.filter_eq_self]
    intro a ha
    have hw := List.all_eq_true.mp h a ha
    have hne : a ≠ ',' := by
      rintro rfl
      exact absurd hw (by decide)
    simpa using hne
  rw [h1]
  unfold stripWs
  have h2 : s.dropWhile isWsC = [] :=
    List.dropWhile_eq_nil_iff.mpr (fun x hx => List.all_eq_true.mp h x hx)
  rw [h2]
  rfl

theorem parseFloat_nil : parseFloat [] = none := by decide

/-- Python membership of `'-'` in the normalised string implies the early
empty/`'nan'` return is not taken. -/
theorem early_if_false_of_dash {v : List Char} (hcon : v.contains '-' = true) :
    ¬(v = [] ∨ toLowerA v = ("nan".toList)) := by
  have hmem : ('-' : Char) ∈ v := by simpa using hcon
  rintro (rfl | hnan)
  · cases hmem
  · have : lowerC '-' ∈ toLowerA v := List.mem_map_of_mem lowerC hmem
    rw [hnan] at this
    exact absurd this (by decide)

theorem block_range_eval {v p0 p1 : List Char} {rest : List (List Char)} {a b : PyFloat}
    (hparts : splitOnP (fun c => c == '-') v = p0 :: p1 :: rest)
    (ha : parseFloat p0 = some a) (hb : parseFloat p1 = some b) :
    block_range v = .ok (pfDiv2 (pfAdd a b)) := by
  unfold block_range
  rw [hparts]
  simp only [avg_first_two, ha, hb]

theorem block_range_ok_iff (v : List Char) :
    isOkE (block_range v) = true ↔
      ((parseFloat (partD v 0)).isSome = true ∧ (parseFloat (partD v 1)).isSome = true) := by
  unfold block_range partD
  rcases hparts : splitOnP (fun c => c == '-') v with _ | ⟨p0, rest⟩
  · exact absurd hparts (splitOnP_ne_nil _ _)
  · rcases rest with _ | ⟨p1, rest2⟩
    · cases hp0 : parseFloat p0 <;>
        simp [avg_first_two, hp0, isOkE, List.getD, parseFloat_nil]
    · cases hp0 : parseFloat p0 <;> cases hp1 : parseFloat p1 <;>
        simp [avg_first_two, hp0, hp1, isOkE, List.getD]

theorem clean_str_range_applies {s : List Char} {a b : PyFloat}
    (hcon : (normCell s).contains '-' = true)
    (ha : parseFloat (partD (normCell s) 0) = some a)
    (hb : parseFloat (partD (normCell s) 1) = some b) :
    clean_complex_string (.str s) = .ok (pfDiv2 (pfAdd a b)) := by
  show clean_str (normCell s) = _
  unfold clean_str
  rw [if_neg (early_if_false_of_dash hcon), if_pos hcon]
  rcases hparts : splitOnP (fun c => c == '-') (normCell s) with _ | ⟨p0, rest⟩
  · exact absurd hparts (splitOnP_ne_nil _ _)
  · rcases rest with _ | ⟨p1, rest2⟩
    · unfold partD at hb
      rw [hparts] at hb
      rw [show ([p0].getD 1 []) = [] from rfl, parseFloat_nil] at hb
      cases hb
    · unfold partD at ha hb
      rw [hparts] at ha hb
      rw [show ((p0 :: p1 :: rest2).getD 0 []) = p0 from rfl] at ha
      rw [show ((p0 :: p1 :: rest2).getD 1 []) = p1 from rfl] at hb
      rw [block_range_eval hparts ha hb]

theorem clean_str_range_fails {s : List Char}
    (hcon : (normCell s).contains '-' = true)
    (hfail : isOkE (block_range (normCell s)) = false) :
    clean_complex_string (.str s) = afterRange (normCell s) := by
  show clean_str (normCell s) = _
  unfold clean_str
  rw [if_neg (early_if_false_of_dash hcon), if_pos hcon]
  rcases hbr : block_range (normCell s) with e | f
  · rfl
  · rw [hbr] at hfail
    cases hfail

/-! ### Claim C1 -/

/-- C1 (counterexample): the input string `"inf"` reaches the final
`float(val)` parse and yields the non-finite float `inf`, so the cleaner
does not always return a *finite* float. -/
theorem C1_counterexample :
    clean_complex_string (.str ("inf".toList)) = .ok .inf ∧
      PyFloat.isFin .inf = false :=
  ⟨by decide, rfl⟩

/-- C1 (amended): for every input value, `clean_complex_string` returns a
float and never raises; in particular it returns 0 for NaN, empty, and
whitespace-only inputs.  (The word "finite" is dropped: infinity-denoting
strings such as `"inf"` yield a non-finite float, see the counterexample.) -/
theorem C1_total_never_raises :
    (∀ c : Cell, ∃ f, clean_complex_string c = .ok f) ∧
    clean_complex_string .na = .ok (.finite 0) ∧
    clean_complex_string (.str []) = .ok (.finite 0) ∧
    (∀ s : List Char, s.all isWsC = true →
      clean_complex_string (.str s) = .ok (.finite 0)) := by
  refine ⟨clean_total, rfl, by decide, ?_⟩
  intro s hws
  show clean_str (normCell s) = _
  rw [normCell_ws hws]
  rfl

/-- C1 witness: the amended theorem applied at the whitespace-only input
`" \t"`. -/
theorem C1_witness :
    clean_complex_string (.str (" \t".toList)) = .ok (.finite 0) :=
  C1_total_never_raises.2.2.2 (" \t".toList) (by decide)

/-! ### Claim C2 -/

/-- C2: `"10-20"` cleans to 15, `"2ชม.30นาที"` cleans to 150, and every
string that is neither a parseable range, a parseable duration, nor a
parseable plain float cleans to 0. -/
theorem C2_clean_values :
    clean_complex_string (.str ("10-20".toList)) = .ok (.finite 15) ∧
    clean_complex_string (.str ("2ชม.30นาที".toList)) = .ok (.finite 150) ∧
    (∀ s : List Char, rangeOkB s = false → durationOkB s = false →
      plainOkB s = false → clean_complex_string (.str s) = .ok (.finite 0)) := by
  refine ⟨?_, ?_, ?_⟩
  · have h : clean_complex_string (.str ("10-20".toList)) =
        .ok (.finite ((10 + 20 : ℚ) / 2)) := rfl
    rw [h]
    norm_num
  · have h : clean_complex_string (.str ("2ชม.30นาที".toList)) =
        .ok (.finite ((2 * 60 + 30 : ℚ))) := rfl
    rw [h]
    norm_num
  · intro s hr hd hp
    unfold rangeOkB at hr
    unfold durationOkB at hd
    unfold plainOkB at hp
    show clean_str (normCell s) = _
    rcases ho : parseFloat (normCell s) with _ | f
    · exact clean_str_unparseable hr hd ho
    · rw [ho] at hp
      cases hp

/-- C2 witness: the fall-through clause applied at the unparseable string
`"abc"`. -/
theorem C2_witness : clean_complex_string (.str ("abc".toList)) = .ok (.finite 0) :=
  C2_clean_values.2.2 ("abc".toList) (by decide) (by decide) (by decide)

/-! ### Claim C10 -/

/-- C10 (counterexample): for `"1-2-3"` the parts around the first `'-'`
are `"1"` and `"2-3"`, which do not both parse as floats, yet the cleaner
does apply range averaging (over the first two components of the full
split) and returns 1.5, not the plain-float fall-through value 0. -/
theorem C10_counterexample :
    (parseFloat (firstDashHalves ("1-2-3".toList)).1).isSome = true ∧
    (parseFloat (firstDashHalves ("1-2-3".toList)).2).isSome = false ∧
    clean_complex_string (.str ("1-2-3".toList)) = .ok (.finite (3 / 2)) ∧
    finalFallback (normCell ("1-2-3".toList)) = .ok (.finite 0) ∧
    PyFloat.finite (3 / 2) ≠ PyFloat.finite 0 := by
  refine ⟨by decide, by decide, ?_, by decide, ?_⟩
  · have h : clean_complex_string (.str ("1-2-3".toList)) =
        .ok (.finite ((1 + 2 : ℚ) / 2)) := rfl
    rw [h]
    norm_num
  · intro h
    rw [PyFloat.finite.injEq] at h
    norm_num at h

/-- C10 (amended): range averaging applies exactly when the *first two
components of the full dash split* both parse as floats, in which case the
result is their average; otherwise evaluation falls through to the
remaining stages (duration parse, then plain float), so `"-5"` returns
-5.0. -/
theorem C10_dash_behaviour :
    clean_complex_string (.str ("-5".toList)) = .ok (.finite (-5)) ∧
    (∀ v : List Char, isOkE (block_range v) = true ↔
      ((parseFloat (partD v 0)).isSome = true ∧ (parseFloat (partD v 1)).isSome = true)) ∧
    (∀ s : List Char, ∀ a b : PyFloat, (normCell s).contains '-' = true →
      parseFloat (partD (normCell s) 0) = some a →
      parseFloat (partD (normCell s) 1) = some b →
      clean_complex_string (.str s) = .ok (pfDiv2 (pfAdd a b))) ∧
    (∀ s : List Char, (normCell s).contains '-' = true →
      isOkE (block_range (normCell s)) = false →
      clean_complex_string (.str s) = afterRange (normCell s)) :=
  ⟨by decide, block_range_ok_iff,
   fun _ _ _ hcon ha hb => clean_str_range_applies hcon ha hb,
   fun _ hcon hfail => clean_str_range_fails hcon hfail⟩

/-- C10 witness: the averaging clause applied at `"10-20"`. -/
theorem C10_witness :
    clean_complex_string (.str ("10-20".toList)) =
      .ok (pfDiv2 (pfAdd (.finite 10) (.finite 20))) :=
  C10_dash_behaviour.2.2.1 ("10-20".toList) (.finite 10) (.finite 20)
    (by decide) (by decide) (by decide)

/-! ### Claim C3 -/

theorem colSum_eq_sum (rows : List RawTRow) (j : ℕ) :
    colSum rows j = (rows.map (fun r => monthVal r j)).sum := by
  unfold colSum
  suffices h : ∀ init : ℚ, rows.foldl (fun acc r => acc + monthVal r j) init =
      init + (rows.map (fun r => monthVal r j)).sum by
    simpa using h 0
  induction rows with
  | nil => intro init; simp
  | cons r rs ih =>
    intro init
    simp only [List.foldl_cons, List.map_cons, List.sum_cons, ih]
    ring

theorem load_tourist_no_national (raw : List RawTRow) :
    ∀ r ∈ load_tourist_data raw, r.name ≠ some nationalLabel := by
  intro r hr
  unfold load_tourist_data at hr
  simp only [List.mem_filter] at hr
  obtain ⟨⟨⟨⟨hraw, h1⟩, h2⟩, h3⟩, h4⟩ := hr
  intro heq
  rw [heq] at h1
  exact absurd h1 (by decide)

/-- C3: the loaded visitor table never contains the national-total label
(so the pseudo-row branch at line 215 is taken), and for every month
column the synthesised national-total pseudo-row holds exactly the sum of
that month's values over all loaded province rows (NaN contributing 0, as
pandas' skipna sum does). -/
theorem C3_national_is_sum (raw : List RawTRow) (ncols j : ℕ) (hj : j < ncols) :
    (∀ r ∈ load_tourist_data raw, r.name ≠ some nationalLabel) ∧
    (province_data_national (load_tourist_data raw) ncols).vals.getD j none =
      some (((load_tourist_data raw).map (fun r => monthVal r j)).sum) := by
  refine ⟨load_tourist_no_national raw, ?_⟩
  unfold province_data_national
  rw [List.getD_eq_getElem?_getD, List.getElem?_map, List.getElem?_range hj]
  simp [colSum_eq_sum]

/-- C3 witness: the theorem applied to a concrete two-province table with
one month column. -/
theorem C3_witness :
    (∀ r ∈ load_tourist_data rawW, r.name ≠ some nationalLabel) ∧
    (province_data_national (load_tourist_data rawW) 1).vals.getD 0 none =
      some (((load_tourist_data rawW).map (fun r => monthVal r 0)).sum) :=
  C3_national_is_sum rawW 1 0 (by decide)

/-! ### Claim C4 -/

theorem find?_map_key {β : Type} {l : List (List Char)} {f : List Char}
    (hf : f ∈ l) (g : List Char → β) :
    ((l.map (fun c => (c, g c))).find? (fun p => p.1 == f)).map (fun p => p.2) =
      some (g f) := by
  induction l with
  | nil => cases hf
  | cons n rest ih =>
    simp only [List.map_cons, List.find?_cons]
    by_cases hb : (n == f) = true
    · have hnf : n = f := by simpa using hb
      subst hnf
      rw [beq_self_eq_true]
      rfl
    · have hb2 : (n == f) = false := by simpa using hb
      rw [hb2]
      have hmem : f ∈ rest := by
        rcases List.mem_cons.mp hf with rfl | hm
        · exact absurd (by simp) hb
        · exact hm
      exact ih hmem

theorem lookupF_build {names : List (List Char)} {f : List Char}
    (hf : f ∈ names) (g : List Char → PyFloat) :
    lookupF (names.map (fun c => (c, g c))) f = some (g f) :=
  find?_map_key hf g

theorem lookupF_map_key {l : List (List Char × List Char)} {p : List Char × List Char}
    (hp : p ∈ l) (hnd : (l.map (fun q => q.2)).Nodup)
    (g : List Char × List Char → PyFloat) :
    lookupF (l.map (fun q => (q.2, g q))) p.2 = some (g p) := by
  induction l with
  | nil => cases hp
  | cons q rest ih =>
    simp only [List.map_cons, List.nodup_cons] at hnd
    unfold lookupF
    simp only [List.map_cons, List.find?_cons]
    by_cases hb : (q.2 == p.2) = true
    · have hq : q.2 = p.2 := by simpa using hb
      rcases List.mem_cons.mp hp with rfl | hm
      · rw [beq_self_eq_true]
        rfl
      · exact absurd (hq ▸ List.mem_map_of_mem (fun q => q.2) hm) hnd.1
    · have hb2 : (q.2 == p.2) = false := by simpa using hb
      rw [hb2]
      have hm : p ∈ rest := by
        rcases List.mem_cons.mp hp with rfl | hm
        · exact absurd (by simp) hb
        · exact hm
      have ih2 := ih hm hnd.2
      unfold lookupF at ih2
      exact ih2

theorem lookupF_append_of_some {cells1 cells2 : List (List Char × PyFloat)}
    {f : List Char} {x : PyFloat} (h : lookupF cells1 f = some x) :
    lookupF (cells1 ++ cells2) f = some x := by
  unfold lookupF at h ⊢
  induction cells1 with
  | nil => cases h
  | cons a rest ih =>
    simp only [List.cons_append, List.find?_cons] at h ⊢
    cases hb : (a.1 == f) with
    | true =>
      rw [hb] at h
      exact h
    | false =>
      rw [hb] at h
      exact ih h

theorem mem_of_group_last {rows : List FRow} {r : FRow} (h : r ∈ group_last rows) :
    r ∈ rows := by
  unfold group_last at h
  rw [List.mem_filterMap] at h
  obtain ⟨p, _, hfind⟩ := h
  exact List.mem_reverse.mp (List.mem_of_find?_eq_some hfind)

/-- Every row of the loaded factor table is a column selection of a built
`new_df` row. -/
theorem load_factor_row_shape {t : FactorCSV} {r : FRow}
    (hr : r ∈ load_factor_and_target_data t) :
    ∃ row ∈ factor_rows t, r = select_cells (make_frow (renameProv t.cols) row) := by
  unfold load_factor_and_target_data at hr
  have h1 := mem_of_group_last hr
  rw [List.mem_map] at h1
  obtain ⟨fr, hfr, heq⟩ := h1
  rw [List.mem_map] at hfr
  obtain ⟨row, hrow, heq2⟩ := hfr
  exact ⟨row, hrow, by rw [← heq, ← heq2]⟩

/-- Column lookup in a selected row: every selected column name resolves. -/
theorem lookupF_select {r : FRow} {f : List Char}
    (hf : f ∈ ("Total_Tourists".toList) :: final_feature_cols) :
    lookupF (select_cells r).cells f = some (lookupD r.cells f) := by
  unfold select_cells
  exact lookupF_build hf (fun c => lookupD r.cells c)

/-- C4: every declared feature of the required feature list is a column of
the returned factor table (both in the declared column list and resolvable
in every returned row), and every mapping target whose source CSV column
is absent is filled with 0 in every returned row. -/
theorem C4_columns_present_zero_filled (t : FactorCSV) :
    (∀ f ∈ required_features, f ∈ df_final_columns ∧
      ∀ r ∈ load_factor_and_target_data t, (lookupF r.cells f).isSome = true) ∧
    (∀ p ∈ column_mapping, (renameProv t.cols).contains p.1 = false →
      ∀ r ∈ load_factor_and_target_data t,
        lookupF r.cells p.2 = some (.finite 0)) := by
  constructor
  · intro f hf
    have hcols : ∀ f ∈ required_features, f ∈ df_final_columns := by decide
    have hsel : ∀ f ∈ required_features,
        f ∈ ("Total_Tourists".toList) :: final_feature_cols := by decide
    refine ⟨hcols f hf, ?_⟩
    intro r hr
    obtain ⟨row, _, rfl⟩ := load_factor_row_shape hr
    rw [lookupF_select (hsel f hf)]
    rfl
  · intro p hp habsent r hr
    obtain ⟨row, _, rfl⟩ := load_factor_row_shape hr
    have hsel : ∀ p ∈ column_mapping,
        p.2 ∈ ("Total_Tourists".toList) :: final_feature_cols := by decide
    rw [lookupF_select (hsel p hp)]
    have hnd : (column_mapping.map (fun q => q.2)).Nodup := by decide
    have hbase : lookupF
        (column_mapping.map (fun q =>
          (q.2, if (renameProv t.cols).contains q.1 then
                  cleanVal (getCellAt (renameProv t.cols) row q.1) else .finite 0)))
        p.2 = some (.finite 0) := by
      rw [lookupF_map_key hp hnd]
      rw [habsent]
      rfl
    unfold make_frow lookupD
    rw [lookupF_append_of_some hbase]
    rfl

theorem getD_zero_mem {α : Type} (l : List α) (d : α) (h : l ≠ []) : l.getD 0 d ∈ l := by
  cases l with
  | nil => exact absurd rfl h
  | cons a t => exact List.mem_cons.mpr (Or.inl rfl)

/-- C4 witness: the zero-fill clause applied to `tW`, whose airport source
column is absent, at its single row. -/
theorem C4_witness : lookupF r0W.cells ("สนามบิน".toList) = some (.finite 0) :=
  (C4_columns_present_zero_filled tW).2
    ("สนามบิน\n (มี=1, ไม่มี=0)".toList, "สนามบิน".toList) (by decide) (by decide)
    r0W (getD_zero_mem _ _ (by decide))

/-! ### Lemmas: sorting -/

theorem mem_insertBy {α : Type} (le : α → α → Bool) (a x : α) (l : List α) :
    x ∈ insertBy le a l ↔ x = a ∨ x ∈ l := by
  induction l with
  | nil => simp [insertBy]
  | cons b rest ih =>
    unfold insertBy
    by_cases hab : le a b = true
    · rw [if_pos hab]
      simp [List.mem_cons]
    · rw [if_neg hab]
      simp only [List.mem_cons, ih]
      tauto

theorem mem_sortBy {α : Type} (le : α → α → Bool) (x : α) (l : List α) :
    x ∈ sortBy le l ↔ x ∈ l := by
  induction l with
  | nil => simp [sortBy]
  | cons a rest ih =>
    unfold sortBy
    rw [mem_insertBy, ih, List.mem_cons]

theorem count_insertBy (le : List Char → List Char → Bool) (a x : List Char)
    (l : List (List Char)) :
    (insertBy le a l).count x = (a :: l).count x := by
  induction l with
  | nil => rfl
  | cons b rest ih =>
    unfold insertBy
    by_cases hab : le a b = true
    · rw [if_pos hab]
    · rw [if_neg hab]
      simp only [List.count_cons, ih]
      omega

theorem count_sortBy (le : List Char → List Char → Bool) (x : List Char)
    (l : List (List Char)) : (sortBy le l).count x = l.count x := by
  induction l with
  | nil => rfl
  | cons a rest ih =>
    unfold sortBy
    rw [count_insertBy]
    simp only [List.count_cons, ih]

theorem pairwise_insertBy {α : Type} (le : α → α → Bool)
    (htot : ∀ a b, le a b = false → le b a = true)
    (htrans : ∀ a b c, le a b = true → le b c = true → le a c = true)
    (a : α) (l : List α) (hl : List.Pairwise (fun x y => le x y = true) l) :
    List.Pairwise (fun x y => le x y = true) (insertBy le a l) := by
  induction l with
  | nil => simp [insertBy]
  | cons b rest ih =>
    rw [List.pairwise_cons] at hl
    unfold insertBy
    by_cases hab : le a b = true
    · rw [if_pos hab]
      rw [List.pairwise_cons]
      refine ⟨?_, List.pairwise_cons.mpr hl⟩
      intro x hx
      rcases List.mem_cons.mp hx with rfl | hxr
      · exact hab
      · exact htrans a b x hab (hl.1 x hxr)
    · rw [if_neg hab]
      rw [List.pairwise_cons]
      refine ⟨?_, ih hl.2⟩
      intro x hx
      rcases (mem_insertBy le a x rest).mp hx with rfl | hxr
      · exact htot x b (by simpa using hab)
      · exact hl.1 x hxr

theorem pairwise_sortBy {α : Type} (le : α → α → Bool)
    (htot : ∀ a b, le a b = false → le b a = true)
    (htrans : ∀ a b c, le a b = true → le b c = true → le a c = true)
    (l : List α) : List.Pairwise (fun x y => le x y = true) (sortBy le l) := by
  induction l with
  | nil => exact List.Pairwise.nil
  | cons a rest ih =>
    exact pairwise_insertBy le htot htrans a (sortBy le rest) ih

/-! ### Claims C5 and C6 -/

theorem mkItem_inj (cur tgt : List Char → PyFloat) {f g : List Char} :
    mkItem cur tgt f = mkItem cur tgt g ↔ f = g := by
  constructor
  · intro h
    exact congrArg SWItem.feature h
  · rintro rfl
    rfl

/-- The classification loop is elementwise: each bucket holds exactly the
items of the features passing its predicate, in input order. -/
theorem swot_lists_eq_filters (cur tgt : List Char → PyFloat) (fs : List (List Char)) :
    swot_lists cur tgt fs =
      ((fs.filter (fun f => isNegFactor f && pfGtB (cur f) (tgt f))).map (mkItem cur tgt),
       (fs.filter (fun f => !isNegFactor f && pfLtB (cur f) (tgt f))).map (mkItem cur tgt),
       (fs.filter (fun f =>
          !(isNegFactor f && pfGtB (cur f) (tgt f)) &&
          !(!isNegFactor f && pfLtB (cur f) (tgt f)))).map (mkItem cur tgt)) := by
  induction fs with
  | nil => rfl
  | cons g rest ih =>
    simp only [swot_lists, ih, List.filter_cons]
    by_cases h1 : isNegFactor g = true
    · by_cases h2 : pfGtB (cur g) (tgt g) = true
      · simp [h1, h2]
      · have h2f : pfGtB (cur g) (tgt g) = false := by simpa using h2
        simp [h1, h2f]
    · have h1f : isNegFactor g = false := by simpa using h1
      by_cases h3 : pfLtB (cur g) (tgt g) = true
      · simp [h1f, h3]
      · have h3f : pfLtB (cur g) (tgt g) = false := by simpa using h3
        simp [h1f, h3f]

theorem mem_map_mkItem (cur tgt : List Char → PyFloat) (p : List Char → Bool)
    (l : List (List Char)) (f : List Char) :
    mkItem cur tgt f ∈ (l.filter p).map (mkItem cur tgt) ↔ f ∈ l ∧ p f = true := by
  constructor
  · intro hm
    rw [List.mem_map] at hm
    obtain ⟨a, ha, heq⟩ := hm
    obtain rfl := (mkItem_inj cur tgt).mp heq
    exact List.mem_filter.mp ha
  · rintro ⟨h1, h2⟩
    rw [List.mem_map]
    exact ⟨f, List.mem_filter.mpr ⟨h1, h2⟩, rfl⟩

/-- C5: for every table, selected province (with its comparison table) and
actionable feature, the loop buckets the feature as a weakness iff it is
problem-type with value above the benchmark, as an opportunity iff it is
positive-type with value below the benchmark, and as a strength iff
neither. -/
theorem C5_swot_buckets (rows : List FRow) (sel : List Char) (imp : List Char → ℚ)
    (comp : List (List Char × (PyFloat × PyFloat × PyFloat)))
    (_hc : comparison_data rows sel = some comp)
    (f : List Char) (hf : f ∈ actionable_vars) :
    (mkItem (curOf comp) (tgtOf comp) f ∈
        (swot_lists (curOf comp) (tgtOf comp) (sorted_actionable_imp imp)).1 ↔
      (isNegFactor f = true ∧ pfGtB (curOf comp f) (tgtOf comp f) = true)) ∧
    (mkItem (curOf comp) (tgtOf comp) f ∈
        (swot_lists (curOf comp) (tgtOf comp) (sorted_actionable_imp imp)).2.1 ↔
      (isNegFactor f = false ∧ pfLtB (curOf comp f) (tgtOf comp f) = true)) ∧
    (mkItem (curOf comp) (tgtOf comp) f ∈
        (swot_lists (curOf comp) (tgtOf comp) (sorted_actionable_imp imp)).2.2 ↔
      ¬((isNegFactor f = true ∧ pfGtB (curOf comp f) (tgtOf comp f) = true) ∨
        (isNegFactor f = false ∧ pfLtB (curOf comp f) (tgtOf comp f) = true))) := by
  have hmem : f ∈ sorted_actionable_imp imp := by
    unfold sorted_actionable_imp
    exact (mem_sortBy _ f _).mpr hf
  generalize sorted_actionable_imp imp = fs at hmem ⊢
  rw [swot_lists_eq_filters]
  refine ⟨?_, ?_, ?_⟩
  · rw [mem_map_mkItem]
    simp only [Bool.and_eq_true]
    tauto
  · rw [mem_map_mkItem]
    simp only [Bool.and_eq_true, Bool.not_eq_true']
    tauto
  · rw [mem_map_mkItem]
    simp only [Bool.and_eq_true, Bool.not_eq_true', Bool.not_eq_true,
      Bool.and_eq_false_iff]
    constructor
    · rintro ⟨-, h1, h2⟩
      rintro (⟨ha, hb⟩ | ⟨ha, hb⟩)
      · rcases h1 with h | h
        · rw [ha] at h; cases h
        · rw [hb] at h; cases h
      · rcases h2 with h | h
        · rw [ha] at h; cases h
        · rw [hb] at h; cases h
    · intro hno
      refine ⟨hmem, ?_, ?_⟩
      · by_cases hn : isNegFactor f = true
        · by_cases hg : pfGtB (curOf comp f) (tgtOf comp f) = true
          · exact absurd (Or.inl ⟨hn, hg⟩) hno
          · exact Or.inr (by simpa using hg)
        · exact Or.inl (by simpa using hn)
      · by_cases hn : isNegFactor f = false
        · by_cases hl : pfLtB (curOf comp f) (tgtOf comp f) = true
          · exact absurd (Or.inr ⟨hn, hl⟩) hno
          · exact Or.inr (by simpa using hl)
        · exact Or.inl (by simpa using hn)

theorem countFeat_map (cur tgt : List Char → PyFloat) (l : List (List Char))
    (f : List Char) : countFeat f (l.map (mkItem cur tgt)) = l.count f := by
  induction l with
  | nil => rfl
  | cons g rest ih =>
    unfold countFeat at ih ⊢
    simp only [List.map_cons, List.filter_cons, List.count_cons]
    have hfeat : ((mkItem cur tgt g).feature == f) = (g == f) := rfl
    rw [hfeat]
    by_cases hgf : (g == f) = true
    · simp [hgf, ih]
    · have hgf2 : (g == f) = false := by simpa using hgf
      simp [hgf2, ih]

theorem count_eq_one_of_mem_nodup {l : List (List Char)} {f : List Char}
    (hnd : l.Nodup) (hf : f ∈ l) : l.count f = 1 := by
  induction l with
  | nil => cases hf
  | cons a rest ih =>
    rw [List.nodup_cons] at hnd
    rw [List.count_cons]
    rcases List.mem_cons.mp hf with rfl | hm
    · have hz : rest.count f = 0 := by
        rw [List.count_eq_zero]
        exact hnd.1
      simp [hz]
    · rw [ih hnd.2 hm]
      have hne : (a == f) = false := by
        simp only [beq_eq_false_iff_ne, ne_eq]
        rintro rfl
        exact hnd.1 hm
      simp [hne]

theorem count_partition (fs : List (List Char)) (f : List Char)
    (p1 p2 : List Char → Bool) (hdisj : ∀ g, p1 g = true → p2 g = false) :
    (fs.filter p1).count f + (fs.filter p2).count f +
      (fs.filter (fun g => !(p1 g) && !(p2 g))).count f = fs.count f := by
  induction fs with
  | nil => rfl
  | cons g rest ih =>
    simp only [List.filter_cons]
    by_cases h1 : p1 g = true
    · have h2 : p2 g = false := hdisj g h1
      simp only [h1, h2, Bool.not_true, Bool.not_false, Bool.false_and, if_true,
        if_false, List.count_cons]
      by_cases hgf : (g == f) = true <;> simp [hgf] <;> omega
    · have h1f : p1 g = false := by simpa using h1
      by_cases h2 : p2 g = true
      · simp only [h1f, h2, Bool.not_true, Bool.not_false, Bool.true_and, if_true,
          if_false, List.count_cons]
        by_cases hgf : (g == f) = true <;> simp [hgf] <;> omega
      · have h2f : p2 g = false := by simpa using h2
        simp only [h1f, h2f, Bool.not_false, Bool.true_and, if_true, if_false,
          List.count_cons]
        by_cases hgf : (g == f) = true <;> simp [hgf] <;> omega

/-- C6: for every table, selected province and actionable feature, the
classification loop places the feature's item in exactly one of the
weakness, opportunity and strength lists. -/
theorem C6_exactly_one_bucket (rows : List FRow) (sel : List Char)
    (imp : List Char → ℚ) (comp : List (List Char × (PyFloat × PyFloat × PyFloat)))
    (_hc : comparison_data rows sel = some comp)
    (f : List Char) (hf : f ∈ actionable_vars) :
    countFeat f (swot_lists (curOf comp) (tgtOf comp) (sorted_actionable_imp imp)).1 +
      countFeat f (swot_lists (curOf comp) (tgtOf comp) (sorted_actionable_imp imp)).2.1 +
      countFeat f (swot_lists (curOf comp) (tgtOf comp) (sorted_actionable_imp imp)).2.2
      = 1 := by
  have hcnt : (sorted_actionable_imp imp).count f = 1 := by
    unfold sorted_actionable_imp
    rw [count_sortBy]
    exact count_eq_one_of_mem_nodup (by decide) hf
  generalize sorted_actionable_imp imp = fs at hcnt ⊢
  rw [swot_lists_eq_filters]
  simp only [countFeat_map]
  rw [← hcnt]
  exact count_partition fs f _ _ (fun g h => by
    rw [Bool.and_eq_true] at h
    simp [h.1])

/-! ### Claim C9 -/

/-- C9 (amended): for every table, selected province (first matching row)
and feature of the feature list, the comparison entry is the tuple
(current value, top-10 benchmark mean, current - benchmark), with the
same sign convention `current - benchmark` for problem-type and positive
features alike. -/
theorem C9_comparison_row (rows : List FRow) (sel : List Char) (prow : FRow)
    (hfind : rows.find? (fun r => r.prov == sel) = some prow)
    (f : List Char) (hf : f ∈ required_features) :
    compLookup rows sel f =
      some (lookupD prow.cells f,
            pfMean ((nlargest10 rows).map (fun r => lookupD r.cells f)),
            pfSub (lookupD prow.cells f)
              (pfMean ((nlargest10 rows).map (fun r => lookupD r.cells f)))) := by
  unfold compLookup comparison_data
  rw [hfind]
  show ((required_features.map
      (fun g => (g, comp_row prow (nlargest10 rows) g))).find?
        (fun p => p.1 == f)).map (fun p => p.2) = _
  rw [find?_map_key hf (fun g => comp_row prow (nlargest10 rows) g)]
  rfl

/-- C9 (counterexample): on `rowsCE` with province A, the problem-type
feature `ปัญหามลพิษ` and the positive feature `ตลาด` both get the gap
`current - benchmark = 5 - 3 = 2`; under the claimed differing sign
convention the problem-type gap would be `-2 ≠ 2`, so the sign convention
does not differ. -/
theorem C9_counterexample :
    compLookup rowsCE ("A".toList) ("ปัญหามลพิษ".toList) =
      some (.finite 5, .finite 3, .finite 2) ∧
    compLookup rowsCE ("A".toList) ("ตลาด".toList) =
      some (.finite 5, .finite 3, .finite 2) ∧
    isNegFactor ("ปัญหามลพิษ".toList) = true ∧
    isNegFactor ("ตลาด".toList) = false ∧
    spec_gap ("ปัญหามลพิษ".toList) (.finite 5) (.finite 3) = .finite (-2) ∧
    PyFloat.finite 2 ≠ PyFloat.finite (-2) := by
  refine ⟨?_, ?_, by decide, by decide, ?_, ?_⟩
  · have h : compLookup rowsCE ("A".toList) ("ปัญหามลพิษ".toList) =
        some (.finite 5, .finite ((0 + 1 + 5 : ℚ) / ((2 : ℕ) : ℚ)),
              .finite (5 + -((0 + 1 + 5 : ℚ) / ((2 : ℕ) : ℚ)))) := rfl
    rw [h]
    norm_num
  · have h : compLookup rowsCE ("A".toList) ("ตลาด".toList) =
        some (.finite 5, .finite ((0 + 1 + 5 : ℚ) / ((2 : ℕ) : ℚ)),
              .finite (5 + -((0 + 1 + 5 : ℚ) / ((2 : ℕ) : ℚ)))) := rfl
    rw [h]
    norm_num
  · have h : spec_gap ("ปัญหามลพิษ".toList) (.finite 5) (.finite 3) =
        .finite ((3 : ℚ) + -5) := rfl
    rw [h]
    norm_num
  · intro h
    rw [PyFloat.finite.injEq] at h
    norm_num at h

/-- C9 witness: the amended theorem applied to `rowsCE`, province A and
the feature `ตลาด`. -/
theorem C9_witness :
    compLookup rowsCE ("A".toList) ("ตลาด".toList) =
      some (lookupD rowA.cells ("ตลาด".toList),
            pfMean ((nlargest10 rowsCE).map (fun r => lookupD r.cells ("ตลาด".toList))),
            pfSub (lookupD rowA.cells ("ตลาด".toList))
              (pfMean ((nlargest10 rowsCE).map
                (fun r => lookupD r.cells ("ตลาด".toList))))) :=
  C9_comparison_row rowsCE ("A".toList) rowA rfl ("ตลาด".toList) (by decide)

/-- C5 witness: the weakness clause of the classification theorem applied
to `rowsCE`, province A and the actionable feature `ตลาด`. -/
theorem C5_witness :
    mkItem (curOf compW) (tgtOf compW) ("ตลาด".toList) ∈
        (swot_lists (curOf compW) (tgtOf compW) (sorted_actionable_imp impW)).1 ↔
      (isNegFactor ("ตลาด".toList) = true ∧
        pfGtB (curOf compW ("ตลาด".toList)) (tgtOf compW ("ตลาด".toList)) = true) :=
  (C5_swot_buckets rowsCE ("A".toList) impW compW rfl ("ตลาด".toList) (by decide)).1

/-- C6 witness: the partition theorem applied to `rowsCE`, province A and
the actionable feature `ตลาด`. -/
theorem C6_witness :
    countFeat ("ตลาด".toList)
        (swot_lists (curOf compW) (tgtOf compW) (sorted_actionable_imp impW)).1 +
      countFeat ("ตลาด".toList)
        (swot_lists (curOf compW) (tgtOf compW) (sorted_actionable_imp impW)).2.1 +
      countFeat ("ตลาด".toList)
        (swot_lists (curOf compW) (tgtOf compW) (sorted_actionable_imp impW)).2.2 = 1 :=
  C6_exactly_one_bucket rowsCE ("A".toList) impW compW rfl ("ตลาด".toList) (by decide)

/-! ### Claim C7 -/

theorem le_foldl_max (l : List ℕ) :
    ∀ init : ℕ, init ≤ l.foldl max init ∧ ∀ x ∈ l, x ≤ l.foldl max init := by
  induction l with
  | nil =>
    intro init
    exact ⟨le_refl _, by simp⟩
  | cons a t ih =>
    intro init
    simp only [List.foldl_cons]
    obtain ⟨h1, h2⟩ := ih (max init a)
    refine ⟨le_trans (le_max_left init a) h1, ?_⟩
    intro x hx
    rcases List.mem_cons.mp hx with rfl | hxt
    · exact le_trans (le_max_right init x) h1
    · exact h2 x hxt

theorem le_maxD_of_mem {x : ℕ} {l : List ℕ} (h : x ∈ l) : x ≤ maxD l :=
  (le_foldl_max l 0).2 x h

theorem foldl_max_mem (l : List ℕ) : ∀ init : ℕ,
    l.foldl max init = init ∨ l.foldl max init ∈ l := by
  induction l with
  | nil => intro init; exact Or.inl rfl
  | cons a t ih =>
    intro init
    simp only [List.foldl_cons]
    rcases ih (max init a) with h | h
    · rcases max_choice init a with hm | hm
      · exact Or.inl (h.trans hm)
      · exact Or.inr (List.mem_cons.mpr (Or.inl (h.trans hm)))
    · exact Or.inr (List.mem_cons.mpr (Or.inr h))

theorem maxD_mem {l : List ℕ} (h : l ≠ []) : maxD l ∈ l := by
  cases l with
  | nil => exact absurd rfl h
  | cons a t =>
    rcases foldl_max_mem (a :: t) 0 with h0 | hmem
    · have ha : a ≤ maxD (a :: t) := le_maxD_of_mem (List.mem_cons.mpr (Or.inl rfl))
      unfold maxD at *
      rw [h0] at ha
      have : a = 0 := Nat.le_zero.mp ha
      rw [h0, ← this]
      exact List.mem_cons.mpr (Or.inl rfl)
    · exact hmem

theorem le_of_getLast?_pairwise {l : List ℕ}
    (hp : List.Pairwise (fun a b => a ≤ b) l) {m : ℕ} (hm : l.getLast? = some m) :
    ∀ x ∈ l, x ≤ m := by
  rw [List.getLast?_eq_some_iff] at hm
  obtain ⟨ys, rfl⟩ := hm
  intro x hx
  rcases List.mem_append.mp hx with hy | hx1
  · exact (List.pairwise_append.mp hp).2.2 x hy m (List.mem_singleton.mpr rfl)
  · rw [List.mem_singleton] at hx1
    subst hx1
    exact le_refl x

/-- The melted date column is sorted ascending. -/
theorem melted_dates_pairwise (vals : List (Option ℚ)) :
    List.Pairwise (fun a b => a ≤ b) ((melted vals).map (fun p => p.1)) := by
  have hp : List.Pairwise
      (fun x y : ℕ × ℚ => (decide (x.1 ≤ y.1)) = true)
      (melted vals) := by
    unfold melted
    apply pairwise_sortBy
    · intro a b hab
      simp only [decide_eq_false_iff_not, not_le] at hab
      simp [le_of_lt hab]
    · intro a b c h1 h2
      simp only [decide_eq_true_eq] at h1 h2 ⊢
      exact le_trans h1 h2
  exact List.Pairwise.map _ (fun a b h => by simpa using h) hp

/-- C7: for every province history with at least one present value, the
forecast slice holds exactly 12 rows, the consecutive months after the
last history date, each carrying the date and the predicted triple
(point estimate, lower bound, upper bound). -/
theorem C7_twelve_forecast_rows (vals : List (Option ℚ))
    (predict : ℕ → ℚ × ℚ × ℚ) (lastD : ℕ)
    (hl : ((melted vals).map (fun p => p.1)).getLast? = some lastD) :
    (forecast_pipeline vals predict).length = 12 ∧
    ∀ k : ℕ, k < 12 → (forecast_pipeline vals predict)[k]? =
      some (lastD + 1 + k, predict (lastD + 1 + k)) := by
  have hpair := melted_dates_pairwise vals
  have hle : ∀ x ∈ (melted vals).map (fun p => p.1), x ≤ lastD :=
    le_of_getLast?_pairwise hpair hl
  have hne : (melted vals).map (fun p => p.1) ≠ [] := by
    intro h
    rw [h] at hl
    cases hl
  have hmaxle : maxD ((melted vals).map (fun p => p.1)) ≤ lastD :=
    hle _ (maxD_mem hne)
  have hlemax : lastD ≤ maxD ((melted vals).map (fun p => p.1)) := by
    apply le_maxD_of_mem
    rw [List.getLast?_eq_some_iff] at hl
    obtain ⟨ys, hys⟩ := hl
    rw [hys]
    exact List.mem_append.mpr (Or.inr (List.mem_singleton.mpr rfl))
  have hmax : maxD ((melted vals).map (fun p => p.1)) = lastD :=
    le_antisymm hmaxle hlemax
  unfold forecast_pipeline
  rw [hl]
  unfold make_future_dataframe
  rw [hmax, List.map_append]
  simp only []
  rw [List.filter_append]
  have h1 : (((melted vals).map (fun p => p.1)).map
      (fun d => (d, predict d))).filter (fun r => decide (lastD < r.1)) = [] := by
    rw [List.filter_eq_nil_iff]
    intro a ha
    rw [List.mem_map] at ha
    obtain ⟨d, hd, rfl⟩ := ha
    simp only [decide_eq_true_eq, not_lt]
    exact hle d hd
  have h2 : ((((List.range 12).map (fun i => lastD + 1 + i)).map
      (fun d => (d, predict d))).filter (fun r => decide (lastD < r.1))) =
      (((List.range 12).map (fun i => lastD + 1 + i)).map
        (fun d => (d, predict d))) := by
    rw [List.filter_eq_self]
    intro a ha
    rw [List.mem_map] at ha
    obtain ⟨d, hd, rfl⟩ := ha
    rw [List.mem_map] at hd
    obtain ⟨i, _, rfl⟩ := hd
    simp only [decide_eq_true_eq]
    omega
  rw [h1, h2, List.nil_append, List.map_map]
  constructor
  · simp
  · intro k hk
    rw [List.getElem?_map, List.getElem?_range hk]
    rfl

/-- C7 witness: a one-month history; its last date is month 0. -/
theorem C7_witness : (forecast_pipeline [some 1] (fun d => ((d : ℚ), 0, 0))).length = 12 :=
  (C7_twelve_forecast_rows [some 1] (fun d => ((d : ℚ), 0, 0)) 0 (by decide)).1
